import Mathlib

/-!
Verification of the `tree_analysis` static-analysis library for the
federated-computation IR.

The definitions below embed, in order:
  * the IR data model (building blocks, type annotations, placements);
  * the generic postorder traversal engine (`transform_postorder`);
  * the analyses of `tree_analysis.py`: `count`, `count_types`,
    `check_has_single_placement`, `check_intrinsics_whitelisted_for_reduction`,
    `check_has_unique_names`;
  * the dependency-propagation engine `extract_nodes_dependent_on_predicate`
    and the derived detector `is_broadcast_dependent_on_aggregate`.

The building-block classes, the traversal engine, the intrinsic URI table and
the two dependency functions live outside the analysed source file; they are
modelled from the specification, each with a doc comment saying so.
-/

namespace TreeAnalysis

/-- Modelled from the spec: a placement literal is a tag denoting where a
distributed value physically resides (`placement_literals.PlacementLiteral`
is not part of the analysed source); it is identified by a stable string. -/
structure PlacementLiteral where
  uri : String
deriving DecidableEq, Repr

/-- Modelled from the spec: the type annotation attached to IR nodes
(`computation_types` is not part of the analysed source).  A federated type
carries a member type and a placement tag; function and named-tuple types
are needed to derive the type signature of compound nodes. -/
inductive TypeSpec where
  | tensor (dtype : String)
  | function (parameter : TypeSpec) (result : TypeSpec)
  | namedTuple (elements : List TypeSpec)
  | federated (member : TypeSpec) (placement : PlacementLiteral)

/-- Modelled from the spec: the IR node is a closed set of variants
(`computation_building_blocks.ComputationBuildingBlock` is not part of the
analysed source): Reference, Lambda, Block (sequential let-binding), Call,
Selection, Tuple, Data and Intrinsic. -/
inductive BuildingBlock where
  | Reference (name : String) (type_spec : TypeSpec)
  | Lambda (parameter_name : String) (parameter_type : TypeSpec) (body : BuildingBlock)
  | Block (locals : List (String × BuildingBlock)) (result : BuildingBlock)
  | Call (fn : BuildingBlock) (argument : BuildingBlock)
  | Selection (source : BuildingBlock) (index : Nat)
  | Tuple (elements : List BuildingBlock)
  | Data (uri : String) (type_spec : TypeSpec)
  | Intrinsic (uri : String) (type_spec : TypeSpec)

namespace BuildingBlock

mutual

/-- Modelled from the spec: the type-annotation accessor exposed by the IR
(each node carries a type annotation; compound nodes derive theirs from
their children in the usual way: a Lambda has a function type, a Block the
type of its result, a Call the result type of its function, a Selection the
selected element type, a Tuple the tuple of its elements' types). -/
def type_signature : BuildingBlock → TypeSpec
  | .Reference _ t => t
  | .Lambda _ pt body => .function pt (type_signature body)
  | .Block _ result => type_signature result
  | .Call fn _ =>
      match type_signature fn with
      | .function _ r => r
      | t => t
  | .Selection source index =>
      match type_signature source with
      | .namedTuple ts => ts.getD index (.tensor "invalid")
      | t => t
  | .Tuple elements => .namedTuple (type_signature_list elements)
  | .Data _ t => t
  | .Intrinsic _ t => t

/-- Type signatures of a list of nodes, in order. -/
def type_signature_list : List BuildingBlock → List TypeSpec
  | [] => []
  | e :: es => type_signature e :: type_signature_list es

end

mutual

/-- Postorder sequence of the nodes of a tree: children strictly before
their parent, siblings left to right (Block locals in declaration order,
then the result; a Call's function before its argument). -/
def postorderNodes : BuildingBlock → List BuildingBlock
  | .Reference n t => [.Reference n t]
  | .Lambda p pt body => postorderNodes body ++ [.Lambda p pt body]
  | .Block locals result =>
      postorderNodesLocals locals ++ postorderNodes result ++ [.Block locals result]
  | .Call fn argument =>
      postorderNodes fn ++ postorderNodes argument ++ [.Call fn argument]
  | .Selection source index => postorderNodes source ++ [.Selection source index]
  | .Tuple elements => postorderNodesList elements ++ [.Tuple elements]
  | .Data u t => [.Data u t]
  | .Intrinsic u t => [.Intrinsic u t]

/-- Postorder sequences of the values of a Block's locals, concatenated. -/
def postorderNodesLocals : List (String × BuildingBlock) → List BuildingBlock
  | [] => []
  | (_, v) :: rest => postorderNodes v ++ postorderNodesLocals rest

/-- Postorder sequences of a list of sibling nodes, concatenated. -/
def postorderNodesList : List BuildingBlock → List BuildingBlock
  | [] => []
  | e :: rest => postorderNodes e ++ postorderNodesList rest

end

end BuildingBlock

/-- Errors surfaced by the analyses: Python `TypeError` for invalid
arguments, `ValueError` for analysis violations. -/
inductive AnalysisError where
  | typeError (message : String)
  | valueError (message : String)
deriving DecidableEq, Repr

open BuildingBlock

mutual

/-- Modelled from the spec: the generic postorder traversal engine
(`transformation_utils.transform_postorder` is not part of the analysed
source).  It visits every node exactly once, children strictly before their
parent, siblings left to right, rebuilding each node from its (possibly
substituted) children before applying the visitor to it.  The visitor
threads a state of type `σ` and may fail, which aborts the traversal
immediately; it returns a replacement node and a modified flag. -/
def transform_postorder {σ : Type} (comp : BuildingBlock)
    (fn : BuildingBlock → σ → Except AnalysisError (BuildingBlock × Bool × σ))
    (s : σ) : Except AnalysisError (BuildingBlock × Bool × σ) :=
  match comp with
  | .Reference n t => fn (.Reference n t) s
  | .Data u t => fn (.Data u t) s
  | .Intrinsic u t => fn (.Intrinsic u t) s
  | .Lambda p pt body =>
      match transform_postorder body fn s with
      | .error e => .error e
      | .ok (b, mb, s1) =>
        match fn (.Lambda p pt b) s1 with
        | .error e => .error e
        | .ok (r, mr, s2) => .ok (r, mb || mr, s2)
  | .Call f a =>
      match transform_postorder f fn s with
      | .error e => .error e
      | .ok (f1, m1, s1) =>
        match transform_postorder a fn s1 with
        | .error e => .error e
        | .ok (a1, m2, s2) =>
          match fn (.Call f1 a1) s2 with
          | .error e => .error e
          | .ok (r, m3, s3) => .ok (r, m1 || m2 || m3, s3)
  | .Selection src i =>
      match transform_postorder src fn s with
      | .error e => .error e
      | .ok (src1, m1, s1) =>
        match fn (.Selection src1 i) s1 with
        | .error e => .error e
        | .ok (r, m2, s2) => .ok (r, m1 || m2, s2)
  | .Tuple es =>
      match transform_postorder_list es fn s with
      | .error e => .error e
      | .ok (es1, m1, s1) =>
        match fn (.Tuple es1) s1 with
        | .error e => .error e
        | .ok (r, m2, s2) => .ok (r, m1 || m2, s2)
  | .Block locals result =>
      match transform_postorder_locals locals fn s with
      | .error e => .error e
      | .ok (ls1, m1, s1) =>
        match transform_postorder result fn s1 with
        | .error e => .error e
        | .ok (r1, m2, s2) =>
          match fn (.Block ls1 r1) s2 with
          | .error e => .error e
          | .ok (r, m3, s3) => .ok (r, m1 || m2 || m3, s3)

/-- Traversal of the values of a Block's locals, in declaration order. -/
def transform_postorder_locals {σ : Type} (locals : List (String × BuildingBlock))
    (fn : BuildingBlock → σ → Except AnalysisError (BuildingBlock × Bool × σ))
    (s : σ) : Except AnalysisError (List (String × BuildingBlock) × Bool × σ) :=
  match locals with
  | [] => .ok ([], false, s)
  | (n, v) :: rest =>
      match transform_postorder v fn s with
      | .error e => .error e
      | .ok (v1, m1, s1) =>
        match transform_postorder_locals rest fn s1 with
        | .error e => .error e
        | .ok (rest1, m2, s2) => .ok ((n, v1) :: rest1, m1 || m2, s2)

/-- Traversal of a list of sibling nodes, left to right. -/
def transform_postorder_list {σ : Type} (es : List BuildingBlock)
    (fn : BuildingBlock → σ → Except AnalysisError (BuildingBlock × Bool × σ))
    (s : σ) : Except AnalysisError (List BuildingBlock × Bool × σ) :=
  match es with
  | [] => .ok ([], false, s)
  | e :: rest =>
      match transform_postorder e fn s with
      | .error e1 => .error e1
      | .ok (e2, m1, s1) =>
        match transform_postorder_list rest fn s1 with
        | .error e1 => .error e1
        | .ok (rest1, m2, s2) => .ok (e2 :: rest1, m1 || m2, s2)

end

mutual

/-- Modelled from the spec: the compact renderer collaborator
(`computation_building_blocks.compact_representation` is not part of the
analysed source): a short human-readable string for any node, used only in
error messages. -/
def compact_representation : BuildingBlock → String
  | .Reference n _ => n
  | .Lambda p _ body => "(" ++ p ++ " -> " ++ compact_representation body ++ ")"
  | .Block locals result =>
      "(let " ++ compact_locals locals ++ " in " ++ compact_representation result ++ ")"
  | .Call f a => compact_representation f ++ "(" ++ compact_representation a ++ ")"
  | .Selection src i => compact_representation src ++ "[" ++ toString i ++ "]"
  | .Tuple es => "<" ++ compact_elements es ++ ">"
  | .Data u _ => u
  | .Intrinsic u _ => u

/-- Renders a Block's locals as comma-separated bindings. -/
def compact_locals : List (String × BuildingBlock) → String
  | [] => ""
  | [(n, v)] => n ++ "=" ++ compact_representation v
  | (n, v) :: rest => n ++ "=" ++ compact_representation v ++ "," ++ compact_locals rest

/-- Renders a Tuple's elements as a comma-separated list. -/
def compact_elements : List BuildingBlock → String
  | [] => ""
  | [e] => compact_representation e
  | e :: rest => compact_representation e ++ "," ++ compact_elements rest

end

/-- The visitor used by `count`: increments the counter when the predicate
is absent or holds on the visited node, and requests no substitution. -/
def count_visitor (predicate : Option (BuildingBlock → Bool)) :
    BuildingBlock → Nat → Except AnalysisError (BuildingBlock × Bool × Nat) :=
  fun comp counter =>
    .ok (comp, false,
      if (match predicate with
          | none => true
          | some p => p comp) then counter + 1 else counter)

/-- `count(comp, predicate)`: the number of computations in `comp` matching
`predicate`, computed by a postorder traversal with a counter; with no
predicate every computation is counted. -/
def count (comp : BuildingBlock) (predicate : Option (BuildingBlock → Bool)) : Nat :=
  match transform_postorder comp (count_visitor predicate) 0 with
  | .ok (_, _, n) => n
  | .error _ => 0

/-- Variant tags of the IR, used by `count_types` in place of Python's
`isinstance` test against a tuple of classes. -/
inductive BlockKind where
  | reference | lambdaKind | block | call | selection | tuple | data | intrinsic
deriving DecidableEq, Repr

/-- The variant tag of a node. -/
def kindOf : BuildingBlock → BlockKind
  | .Reference _ _ => .reference
  | .Lambda _ _ _ => .lambdaKind
  | .Block _ _ => .block
  | .Call _ _ => .call
  | .Selection _ _ => .selection
  | .Tuple _ => .tuple
  | .Data _ _ => .data
  | .Intrinsic _ _ => .intrinsic

/-- `count_types(comp, types)`: counts the nodes whose variant is among
`types`. -/
def count_types (comp : BuildingBlock) (types : List BlockKind) : Nat :=
  count comp (some (fun x => types.contains (kindOf x)))

/-- Whether a node's type signature is a federated type whose placement
differs from `single_placement`. -/
def placement_mismatch (single_placement : PlacementLiteral) (comp : BuildingBlock) : Bool :=
  match comp.type_signature with
  | .federated _ p => decide (p ≠ single_placement)
  | _ => false

/-- The error raised by `check_has_single_placement` on an offending node. -/
def placement_error (single_placement : PlacementLiteral) (comp : BuildingBlock) : AnalysisError :=
  .valueError ("Comp contains a placement other than " ++ single_placement.uri ++
    "; placement " ++
    (match comp.type_signature with
     | .federated _ p => p.uri
     | _ => "") ++
    " on comp " ++ compact_representation comp ++ " inside the structure. ")

/-- The visitor used by `check_has_single_placement`: raises a `ValueError`
on a node whose federated type carries a different placement, and requests
no substitution. -/
def placement_visitor (single_placement : PlacementLiteral) :
    BuildingBlock → Unit → Except AnalysisError (BuildingBlock × Bool × Unit) :=
  fun comp u =>
    if placement_mismatch single_placement comp then
      .error (placement_error single_placement comp)
    else
      .ok (comp, false, u)

/-- `check_has_single_placement(comp, single_placement)`: checks that the
AST of `comp` contains only `single_placement`, raising a `ValueError` on
the first node whose federated type carries another placement. -/
def check_has_single_placement (comp : BuildingBlock)
    (single_placement : PlacementLiteral) : Except AnalysisError Unit :=
  match transform_postorder comp (placement_visitor single_placement) () with
  | .ok _ => .ok ()
  | .error e => .error e

/-- Modelled from the spec: the fixed whitelist of intrinsic URIs reducible
to aggregate or broadcast (the URI strings of `intrinsic_defs` are not part
of the analysed source; each constant's URI is its lowercase name). -/
def uri_whitelist : List String :=
  ["federated_aggregate", "federated_apply", "federated_broadcast",
   "federated_map", "federated_map_all_equal", "federated_value_at_clients",
   "federated_value_at_server", "federated_zip_at_server",
   "federated_zip_at_clients"]

/-- Whether a node is an Intrinsic whose URI is outside the whitelist. -/
def nonwhitelisted_intrinsic (comp : BuildingBlock) : Bool :=
  match comp with
  | .Intrinsic u _ => !uri_whitelist.contains u
  | _ => false

/-- The error raised by `check_intrinsics_whitelisted_for_reduction` on an
offending Intrinsic. -/
def whitelist_error (comp : BuildingBlock) : AnalysisError :=
  .valueError ("Encountered an Intrinsic not currently reducible to aggregate or " ++
    "broadcast, the intrinsic " ++ compact_representation comp)

/-- The visitor used by `check_intrinsics_whitelisted_for_reduction`: raises
a `ValueError` on a non-whitelisted Intrinsic, and requests no
substitution. -/
def whitelist_visitor :
    BuildingBlock → Unit → Except AnalysisError (BuildingBlock × Bool × Unit) :=
  fun comp u =>
    if nonwhitelisted_intrinsic comp then
      .error (whitelist_error comp)
    else
      .ok (comp, false, u)

/-- `check_intrinsics_whitelisted_for_reduction(comp)`: raises a
`ValueError` on the first Intrinsic under `comp` that is not whitelisted as
currently reducible to aggregate or broadcast. -/
def check_intrinsics_whitelisted_for_reduction (comp : BuildingBlock) :
    Except AnalysisError Unit :=
  match transform_postorder comp whitelist_visitor () with
  | .ok _ => .ok ()
  | .error e => .error e

mutual

/-- The bound names of a tree (every Lambda parameter and Block local), in
traversal order. -/
def bound_names : BuildingBlock → List String
  | .Reference _ _ => []
  | .Lambda p _ body => p :: bound_names body
  | .Block locals result => bound_names_locals locals ++ bound_names result
  | .Call f a => bound_names f ++ bound_names a
  | .Selection src _ => bound_names src
  | .Tuple es => bound_names_list es
  | .Data _ _ => []
  | .Intrinsic _ _ => []

/-- Bound names of a Block's locals: each local's name followed by the
bound names of its value. -/
def bound_names_locals : List (String × BuildingBlock) → List String
  | [] => []
  | (n, v) :: rest => n :: (bound_names v ++ bound_names_locals rest)

/-- Bound names of a list of sibling nodes, concatenated. -/
def bound_names_list : List BuildingBlock → List String
  | [] => []
  | e :: rest => bound_names e ++ bound_names_list rest

end

/-- Whether a list of strings has no duplicate. -/
def nodup_names : List String → Bool
  | [] => true
  | x :: xs => !xs.contains x && nodup_names xs

/-- Modelled from the spec: the global name-uniqueness oracle
(`transformation_utils.has_unique_names` is not part of the analysed
source): whether every bound name (every Lambda parameter, every Block
local) is unique across the entire tree. -/
def has_unique_names (comp : BuildingBlock) : Bool :=
  nodup_names (bound_names comp)

/-- `check_has_unique_names(comp)`: raises a `ValueError` when the
uniqueness oracle reports a collision among bound names. -/
def check_has_unique_names (comp : BuildingBlock) : Except AnalysisError Unit :=
  if has_unique_names comp then .ok ()
  else .error (.valueError ("This transform should only be called after we have uniquified all " ++
    "`computation_building_blocks.Reference` names, since we may be moving " ++
    "computations with unbound references under constructs which bind " ++
    "those references."))

/-- A node identity: the path of child indices from the root to the node
(a Block's result sits after its locals; a Call's argument after its
function).  Structurally identical subtrees at different positions have
different paths, so paths model the identity-based result sets. -/
abbrev Path := List Nat

/-- Dependency status of a name in the scope environment: the nearest
binding wins (shadowing); an unbound name is never dependent. -/
def env_lookup (name : String) : List (String × Bool) → Bool
  | [] => false
  | (m, b) :: rest => if name = m then b else env_lookup name rest

mutual

/-- Modelled from the spec: the scope-aware dependency propagation of
`extract_nodes_dependent_on_predicate` (the function is not part of the
analysed source).  One postorder pass over the subtree at `path`,
maintaining an environment mapping each bound name to a dependency flag;
returns the subtree's dependency status and the identities (paths) of its
dependent nodes.  A node matching the predicate is dependent regardless of
kind; a Reference is dependent iff its nearest binding is; a Lambda binds
its parameter as not dependent and takes its body's status; a Block
processes locals in order, binding each name to its value's status for the
subsequent locals and the result, and is dependent iff some local's value
or the result is; Call, Tuple and Selection are dependent iff some direct
child is; Data and Intrinsic only by direct match. -/
def dependent_aux (predicate : BuildingBlock → Bool) :
    BuildingBlock → List (String × Bool) → Path → Bool × List Path
  | .Reference n t, env, path =>
      let status := predicate (.Reference n t) || env_lookup n env
      (status, if status then [path] else [])
  | .Lambda p pt body, env, path =>
      let r := dependent_aux predicate body ((p, false) :: env) (path ++ [0])
      let status := predicate (.Lambda p pt body) || r.1
      (status, r.2 ++ if status then [path] else [])
  | .Block locals result, env, path =>
      let lr := dependent_locals predicate locals env path 0
      let rr := dependent_aux predicate result lr.2.2 (path ++ [locals.length])
      let status := predicate (.Block locals result) || lr.1 || rr.1
      (status, lr.2.1 ++ rr.2 ++ if status then [path] else [])
  | .Call f a, env, path =>
      let fr := dependent_aux predicate f env (path ++ [0])
      let ar := dependent_aux predicate a env (path ++ [1])
      let status := predicate (.Call f a) || fr.1 || ar.1
      (status, fr.2 ++ ar.2 ++ if status then [path] else [])
  | .Selection src i, env, path =>
      let sr := dependent_aux predicate src env (path ++ [0])
      let status := predicate (.Selection src i) || sr.1
      (status, sr.2 ++ if status then [path] else [])
  | .Tuple es, env, path =>
      let er := dependent_list predicate es env path 0
      let status := predicate (.Tuple es) || er.1
      (status, er.2 ++ if status then [path] else [])
  | .Data u t, _, path =>
      let status := predicate (.Data u t)
      (status, if status then [path] else [])
  | .Intrinsic u t, _, path =>
      let status := predicate (.Intrinsic u t)
      (status, if status then [path] else [])

/-- Processes a Block's locals in declaration order: the `i`-th local's
value is analysed in the environment of the previous locals, then its name
is bound to its status.  Returns (some local dependent, dependent paths,
extended environment). -/
def dependent_locals (predicate : BuildingBlock → Bool) :
    List (String × BuildingBlock) → List (String × Bool) → Path → Nat →
    Bool × List Path × List (String × Bool)
  | [], env, _, _ => (false, [], env)
  | (n, v) :: rest, env, path, i =>
      let vr := dependent_aux predicate v env (path ++ [i])
      let rr := dependent_locals predicate rest ((n, vr.1) :: env) path (i + 1)
      (vr.1 || rr.1, vr.2 ++ rr.2.1, rr.2.2)

/-- Analyses the elements of a Tuple left to right in a shared
environment; returns (some element dependent, dependent paths). -/
def dependent_list (predicate : BuildingBlock → Bool) :
    List BuildingBlock → List (String × Bool) → Path → Nat → Bool × List Path
  | [], _, _, _ => (false, [])
  | e :: rest, env, path, i =>
      let er := dependent_aux predicate e env (path ++ [i])
      let rr := dependent_list predicate rest env path (i + 1)
      (er.1 || rr.1, er.2 ++ rr.2)

end

/-- Modelled from the spec: `extract_nodes_dependent_on_predicate(tree,
predicate)` returns the set of identities (paths) of the nodes whose value
is influenced by some predicate-matching node, per the scoped propagation
rules. -/
def extract_nodes_dependent_on_predicate (tree : BuildingBlock)
    (predicate : BuildingBlock → Bool) : List Path :=
  (dependent_aux predicate tree [] []).2

/-- The node of a tree at a given path, when the path is valid. -/
def nodeAt : BuildingBlock → Path → Option BuildingBlock
  | c, [] => some c
  | .Lambda _ _ body, 0 :: p => nodeAt body p
  | .Block locals result, i :: p =>
      if h : i < locals.length then nodeAt (locals.get ⟨i, h⟩).2 p
      else if i = locals.length then nodeAt result p
      else none
  | .Call f _, 0 :: p => nodeAt f p
  | .Call _ a, 1 :: p => nodeAt a p
  | .Selection src _, 0 :: p => nodeAt src p
  | .Tuple es, i :: p =>
      if h : i < es.length then nodeAt (es.get ⟨i, h⟩) p else none
  | _, _ => none

/-- Whether a node is a call whose function is the named intrinsic. -/
def is_called_intrinsic (uri : String) : BuildingBlock → Bool
  | .Call (.Intrinsic u _) _ => u = uri
  | _ => false

/-- Modelled from the spec: `is_broadcast_dependent_on_aggregate(tree)`
runs the dependency engine with predicate "this node is a call to the
aggregation operator" and returns `(true, S)` where `S` is the set of
broadcast-operator call nodes in the dependent set when that set is
nonempty, and `(false, {})` otherwise (per the spec's testable properties,
the returned set holds the dependent broadcast calls themselves). -/
def is_broadcast_dependent_on_aggregate (tree : BuildingBlock) :
    Bool × List Path :=
  let dependent := extract_nodes_dependent_on_predicate tree
    (is_called_intrinsic "federated_aggregate")
  let broadcast_dependent := dependent.filter (fun p =>
    match nodeAt tree p with
    | some c => is_called_intrinsic "federated_broadcast" c
    | none => false)
  if broadcast_dependent.isEmpty then (false, [])
  else (true, broadcast_dependent)

/-- Modelled from the spec: the eager `py_typecheck`-style argument checks
(`py_typecheck` is not part of the analysed source).  An argument of the
wrong kind is modelled as `none`; every entry point rejects it with a
`TypeError` before any traversal, performing no analysis work.  These
wrappers expose the callable surface with Python's dynamic checks made
explicit. -/
def count_checked (comp : Option BuildingBlock)
    (predicate : Option (BuildingBlock → Bool)) : Except AnalysisError Nat :=
  match comp with
  | none => .error (.typeError "Expected a ComputationBuildingBlock")
  | some c => .ok (count c predicate)

/-- Argument-checked `count_types`: rejects a non-IR tree argument with a
`TypeError` before any traversal. -/
def count_types_checked (comp : Option BuildingBlock) (types : List BlockKind) :
    Except AnalysisError Nat :=
  match comp with
  | none => .error (.typeError "Expected a ComputationBuildingBlock")
  | some c => .ok (count_types c types)

/-- Argument-checked `check_has_single_placement`: rejects a non-IR tree or
a non-placement argument with a `TypeError` before any traversal. -/
def check_has_single_placement_checked (comp : Option BuildingBlock)
    (single_placement : Option PlacementLiteral) : Except AnalysisError Unit :=
  match comp with
  | none => .error (.typeError "Expected a ComputationBuildingBlock")
  | some c =>
    match single_placement with
    | none => .error (.typeError "Expected a PlacementLiteral")
    | some pl => check_has_single_placement c pl

/-- Argument-checked `check_intrinsics_whitelisted_for_reduction`: rejects
a non-IR tree argument with a `TypeError` before any traversal. -/
def check_intrinsics_whitelisted_for_reduction_checked
    (comp : Option BuildingBlock) : Except AnalysisError Unit :=
  match comp with
  | none => .error (.typeError "Expected a ComputationBuildingBlock")
  | some c => check_intrinsics_whitelisted_for_reduction c

/-- Argument-checked `check_has_unique_names`: the uniqueness oracle itself
rejects a non-IR tree argument with a `TypeError` before any traversal. -/
def check_has_unique_names_checked (comp : Option BuildingBlock) :
    Except AnalysisError Unit :=
  match comp with
  | none => .error (.typeError "Expected a ComputationBuildingBlock")
  | some c => check_has_unique_names c

/-- Argument-checked `extract_nodes_dependent_on_predicate`: rejects a
non-IR tree or a non-callable predicate with a `TypeError` before any
traversal. -/
def extract_nodes_dependent_on_predicate_checked (comp : Option BuildingBlock)
    (predicate : Option (BuildingBlock → Bool)) :
    Except AnalysisError (List Path) :=
  match comp with
  | none => .error (.typeError "Expected a ComputationBuildingBlock")
  | some c =>
    match predicate with
    | none => .error (.typeError "Expected a callable predicate")
    | some p => .ok (extract_nodes_dependent_on_predicate c p)

/-- Argument-checked `is_broadcast_dependent_on_aggregate`: rejects a
non-IR tree argument with a `TypeError` before any traversal. -/
def is_broadcast_dependent_on_aggregate_checked (comp : Option BuildingBlock) :
    Except AnalysisError (Bool × List Path) :=
  match comp with
  | none => .error (.typeError "Expected a ComputationBuildingBlock")
  | some c => .ok (is_broadcast_dependent_on_aggregate c)

/-- The predicate effectively counted by `count`: every node when the
predicate argument is omitted (`none`), else the given predicate. -/
def effective_predicate (predicate : Option (BuildingBlock → Bool)) :
    BuildingBlock → Bool :=
  fun c =>
    match predicate with
    | none => true
    | some p => p c

/-- A sample tensor type annotation for the concrete scenarios. -/
def int32 : TypeSpec := .tensor "int32"

/-- The scenario tree `Block([("x", Intrinsic("dummy"))], Reference("x"))`:
the dependency flows from the local's value through the lexical binding
into the result reference. -/
def dummy_block : BuildingBlock :=
  .Block [("x", .Intrinsic "dummy" int32)] (.Reference "x" int32)

/-- The predicate "identifier == dummy" of the dependency scenarios. -/
def dummy_predicate : BuildingBlock → Bool :=
  fun c =>
    match c with
    | .Intrinsic u _ => u = "dummy"
    | _ => false

/-- A federated type placed at the participants. -/
def clients_int32 : TypeSpec := .federated (.tensor "int32") ⟨"clients"⟩

/-- A called federated aggregate over the given value, with dummy zero,
accumulate, merge and report arguments. -/
def called_federated_aggregate (value : BuildingBlock) : BuildingBlock :=
  .Call
    (.Intrinsic "federated_aggregate"
      (.function (.namedTuple [clients_int32, int32, int32, int32, int32]) clients_int32))
    (.Tuple [value, .Data "zero" int32,
      .Lambda "accumulate_parameter" (.namedTuple [int32, int32]) (.Data "accumulate_result" int32),
      .Lambda "merge_parameter" (.namedTuple [int32, int32]) (.Data "merge_result" int32),
      .Lambda "report_parameter" int32 (.Data "report_result" int32)])

/-- A called federated broadcast of the given value. -/
def called_federated_broadcast (value : BuildingBlock) : BuildingBlock :=
  .Call (.Intrinsic "federated_broadcast" (.function clients_int32 clients_int32)) value

/-- A tree of shape `broadcast(aggregate(...))`: the broadcast call depends
on the aggregate call. -/
def broadcast_of_aggregate : BuildingBlock :=
  called_federated_broadcast (called_federated_aggregate (.Data "value" clients_int32))

/-- A tree of shape `aggregate(broadcast(...), ...)`: the aggregate call
depends on the broadcast call, not the reverse. -/
def aggregate_of_broadcast : BuildingBlock :=
  called_federated_aggregate (called_federated_broadcast (.Data "value" clients_int32))

/-- An Intrinsic with identifier `federated_mean`, outside the whitelist. -/
def federated_mean_intrinsic : BuildingBlock :=
  .Intrinsic "federated_mean" (.function clients_int32 clients_int32)

/-- An Intrinsic with identifier `federated_map`, inside the whitelist. -/
def federated_map_intrinsic : BuildingBlock :=
  .Intrinsic "federated_map"
    (.function (.namedTuple [.function int32 int32, clients_int32]) clients_int32)

/-! Characterization of the traversal engine on read-only visitors.  Every
visitor of this library has the shape `pure_visitor P E g`: it raises
`E c` on a node `c` satisfying `P`, and otherwise returns the node itself
unmodified while updating the state by `g`. -/

/-- A read-only visitor: raises `E c` when `P c`, else returns the visited
node with no substitution and state updated by `g`. -/
def pure_visitor {σ : Type} (P : BuildingBlock → Bool) (E : BuildingBlock → AnalysisError)
    (g : BuildingBlock → σ → σ) :
    BuildingBlock → σ → Except AnalysisError (BuildingBlock × Bool × σ) :=
  fun c s => if P c then .error (E c) else .ok (c, false, g c s)

mutual

/-- A postorder traversal with a read-only visitor errors on the first
`P`-node in postorder, and otherwise returns the tree unchanged with the
state folded over the postorder node sequence. -/
theorem transform_pure {σ : Type} (P : BuildingBlock → Bool)
    (E : BuildingBlock → AnalysisError) (g : BuildingBlock → σ → σ) :
    ∀ (c : BuildingBlock) (s : σ),
      transform_postorder c (pure_visitor P E g) s =
        match (postorderNodes c).find? P with
        | some x => .error (E x)
        | none => .ok (c, false, (postorderNodes c).foldl (fun s x => g x s) s)
  | .Reference n t, s => by
      cases hP : P (.Reference n t) <;>
        simp [transform_postorder, pure_visitor, postorderNodes, List.find?, hP]
  | .Data u t, s => by
      cases hP : P (.Data u t) <;>
        simp [transform_postorder, pure_visitor, postorderNodes, List.find?, hP]
  | .Intrinsic u t, s => by
      cases hP : P (.Intrinsic u t) <;>
        simp [transform_postorder, pure_visitor, postorderNodes, List.find?, hP]
  | .Lambda p pt body, s => by
      have ih := transform_pure P E g body s
      simp only [transform_postorder, postorderNodes, List.find?_append, List.foldl_append]
      rw [ih]
      cases hf : (postorderNodes body).find? P with
      | some x => simp
      | none =>
        cases hP : P (.Lambda p pt body) <;>
          simp [pure_visitor, hP, List.find?]
  | .Call f a, s => by
      have ihf := transform_pure P E g f s
      simp only [transform_postorder, postorderNodes, List.find?_append, List.foldl_append]
      rw [ihf]
      cases hf : (postorderNodes f).find? P with
      | some x => simp
      | none =>
        have iha := transform_pure P E g a ((postorderNodes f).foldl (fun s x => g x s) s)
        dsimp only
        rw [iha]
        cases ha : (postorderNodes a).find? P with
        | some x => simp
        | none =>
          cases hP : P (.Call f a) <;>
            simp [pure_visitor, hP, List.find?]
  | .Selection src i, s => by
      have ih := transform_pure P E g src s
      simp only [transform_postorder, postorderNodes, List.find?_append, List.foldl_append]
      rw [ih]
      cases hf : (postorderNodes src).find? P with
      | some x => simp
      | none =>
        cases hP : P (.Selection src i) <;>
          simp [pure_visitor, hP, List.find?]
  | .Tuple es, s => by
      have ih := transform_pure_list P E g es s
      simp only [transform_postorder, postorderNodes, List.find?_append, List.foldl_append]
      rw [ih]
      cases hf : (postorderNodesList es).find? P with
      | some x => simp
      | none =>
        cases hP : P (.Tuple es) <;>
          simp [pure_visitor, hP, List.find?]
  | .Block locals result, s => by
      have ihl := transform_pure_locals P E g locals s
      simp only [transform_postorder, postorderNodes, List.find?_append, List.foldl_append]
      rw [ihl]
      cases hl : (postorderNodesLocals locals).find? P with
      | some x => simp
      | none =>
        have ihr := transform_pure P E g result
          ((postorderNodesLocals locals).foldl (fun s x => g x s) s)
        dsimp only
        rw [ihr]
        cases hr : (postorderNodes result).find? P with
        | some x => simp
        | none =>
          cases hP : P (.Block locals result) <;>
            simp [pure_visitor, hP, List.find?]

/-- Counterpart of `transform_pure` for a Block's locals. -/
theorem transform_pure_locals {σ : Type} (P : BuildingBlock → Bool)
    (E : BuildingBlock → AnalysisError) (g : BuildingBlock → σ → σ) :
    ∀ (ls : List (String × BuildingBlock)) (s : σ),
      transform_postorder_locals ls (pure_visitor P E g) s =
        match (postorderNodesLocals ls).find? P with
        | some x => .error (E x)
        | none => .ok (ls, false, (postorderNodesLocals ls).foldl (fun s x => g x s) s)
  | [], s => by
      simp [transform_postorder_locals, postorderNodesLocals, List.find?]
  | (n, v) :: rest, s => by
      have ihv := transform_pure P E g v s
      simp only [transform_postorder_locals, postorderNodesLocals,
        List.find?_append, List.foldl_append]
      rw [ihv]
      cases hv : (postorderNodes v).find? P with
      | some x => simp
      | none =>
        have ihr := transform_pure_locals P E g rest
          ((postorderNodes v).foldl (fun s x => g x s) s)
        dsimp only
        rw [ihr]
        cases hr : (postorderNodesLocals rest).find? P with
        | some x => simp
        | none => simp

/-- Counterpart of `transform_pure` for a Tuple's elements. -/
theorem transform_pure_list {σ : Type} (P : BuildingBlock → Bool)
    (E : BuildingBlock → AnalysisError) (g : BuildingBlock → σ → σ) :
    ∀ (es : List BuildingBlock) (s : σ),
      transform_postorder_list es (pure_visitor P E g) s =
        match (postorderNodesList es).find? P with
        | some x => .error (E x)
        | none => .ok (es, false, (postorderNodesList es).foldl (fun s x => g x s) s)
  | [], s => by
      simp [transform_postorder_list, postorderNodesList, List.find?]
  | e :: rest, s => by
      have ihe := transform_pure P E g e s
      simp only [transform_postorder_list, postorderNodesList,
        List.find?_append, List.foldl_append]
      rw [ihe]
      cases he : (postorderNodes e).find? P with
      | some x => simp
      | none =>
        have ihr := transform_pure_list P E g rest
          ((postorderNodes e).foldl (fun s x => g x s) s)
        dsimp only
        rw [ihr]
        cases hr : (postorderNodesList rest).find? P with
        | some x => simp
        | none => simp

end

/-- Folding a conditional increment over a list counts the satisfying
elements. -/
theorem foldl_count (p : BuildingBlock → Bool) :
    ∀ (l : List BuildingBlock) (n : Nat),
      l.foldl (fun s x => if p x then s + 1 else s) n = n + l.countP p := by
  intro l
  induction l with
  | nil => intro n; simp
  | cons a l ih =>
      intro n
      cases hp : p a
      · simp [List.countP_cons, hp, ih]
      · simp [List.countP_cons, hp, ih]
        omega

/-- The counting visitor is the read-only visitor that never fails and
increments the counter on effectively matching nodes. -/
theorem count_visitor_eq (predicate : Option (BuildingBlock → Bool)) :
    count_visitor predicate =
      pure_visitor (fun _ => false) (fun _ => .valueError "")
        (fun c n => if effective_predicate predicate c then n + 1 else n) := by
  funext c s
  simp [count_visitor, pure_visitor, effective_predicate]

/-- The counting traversal never fails, returns the tree unchanged with no
modification, and its counter adds the number of effectively matching
postorder nodes. -/
theorem transform_count (predicate : Option (BuildingBlock → Bool))
    (comp : BuildingBlock) (n : Nat) :
    transform_postorder comp (count_visitor predicate) n =
      .ok (comp, false, n + (postorderNodes comp).countP (effective_predicate predicate)) := by
  rw [count_visitor_eq]
  rw [transform_pure (fun _ => false) (fun _ => .valueError "")
    (fun c n => if effective_predicate predicate c then n + 1 else n) comp n]
  have hf : (postorderNodes comp).find? (fun _ => false) = none := by
    simp [List.find?_eq_none]
  rw [hf]
  dsimp only
  rw [foldl_count]

/-- `count` counts the effectively matching nodes of the postorder
sequence. -/
theorem count_eq_countP (comp : BuildingBlock)
    (predicate : Option (BuildingBlock → Bool)) :
    count comp predicate =
      (postorderNodes comp).countP (effective_predicate predicate) := by
  unfold count
  rw [transform_count]
  simp

/-- The placement visitor is the read-only visitor raising the placement
error on mismatching nodes. -/
theorem placement_visitor_eq (pl : PlacementLiteral) :
    placement_visitor pl =
      pure_visitor (placement_mismatch pl) (placement_error pl) (fun _ u => u) := by
  funext c s
  simp [placement_visitor, pure_visitor]

/-- The whitelist visitor is the read-only visitor raising the whitelist
error on non-whitelisted intrinsics. -/
theorem whitelist_visitor_eq :
    whitelist_visitor =
      pure_visitor nonwhitelisted_intrinsic whitelist_error (fun _ u => u) := by
  funext c s
  simp [whitelist_visitor, pure_visitor]

/-- `check_has_single_placement` errors on the first postorder node whose
federated type carries another placement, else returns normally. -/
theorem check_has_single_placement_eq (comp : BuildingBlock) (pl : PlacementLiteral) :
    check_has_single_placement comp pl =
      match (postorderNodes comp).find? (placement_mismatch pl) with
      | some x => .error (placement_error pl x)
      | none => .ok () := by
  unfold check_has_single_placement
  rw [placement_visitor_eq,
    transform_pure (placement_mismatch pl) (placement_error pl) (fun _ u => u) comp ()]
  cases h : (postorderNodes comp).find? (placement_mismatch pl) <;> simp

/-- `check_intrinsics_whitelisted_for_reduction` errors on the first
non-whitelisted Intrinsic in postorder, else returns normally. -/
theorem check_intrinsics_whitelisted_eq (comp : BuildingBlock) :
    check_intrinsics_whitelisted_for_reduction comp =
      match (postorderNodes comp).find? nonwhitelisted_intrinsic with
      | some x => .error (whitelist_error x)
      | none => .ok () := by
  unfold check_intrinsics_whitelisted_for_reduction
  rw [whitelist_visitor_eq,
    transform_pure nonwhitelisted_intrinsic whitelist_error (fun _ u => u) comp ()]
  cases h : (postorderNodes comp).find? nonwhitelisted_intrinsic <;> simp

/-- Looking a name up in an all-false environment yields false. -/
theorem env_lookup_false (name : String) :
    ∀ env : List (String × Bool), (∀ x ∈ env, x.2 = false) →
      env_lookup name env = false := by
  intro env
  induction env with
  | nil => intro _; rfl
  | cons a rest ih =>
      intro h
      obtain ⟨m, b⟩ := a
      have hb : b = false := h (m, b) (List.mem_cons_self _ _)
      simp only [env_lookup]
      split
      · exact hb
      · exact ih (fun x hx => h x (List.mem_cons_of_mem _ hx))

mutual

/-- Under the always-false predicate nothing is dependent: the engine
returns status false and an empty set whenever the environment carries no
dependent binding. -/
theorem dependent_aux_false :
    ∀ (c : BuildingBlock) (env : List (String × Bool)) (path : Path),
      (∀ x ∈ env, x.2 = false) →
      dependent_aux (fun _ => false) c env path = (false, [])
  | .Reference n t, env, path => fun henv => by
      simp [dependent_aux, env_lookup_false n env henv]
  | .Lambda p pt body, env, path => fun henv => by
      have hb := dependent_aux_false body ((p, false) :: env) (path ++ [0])
        (by
          intro x hx
          rcases List.mem_cons.mp hx with h | h
          · rw [h]
          · exact henv x h)
      simp [dependent_aux, hb]
  | .Block locals result, env, path => fun henv => by
      have hl := dependent_locals_false locals env path 0 henv
      have hr := dependent_aux_false result
        (dependent_locals (fun _ => false) locals env path 0).2.2
        (path ++ [locals.length]) hl.2.2
      simp [dependent_aux, hl.1, hl.2.1, hr]
  | .Call f a, env, path => fun henv => by
      have hf := dependent_aux_false f env (path ++ [0]) henv
      have ha := dependent_aux_false a env (path ++ [1]) henv
      simp [dependent_aux, hf, ha]
  | .Selection src i, env, path => fun henv => by
      have hs := dependent_aux_false src env (path ++ [0]) henv
      simp [dependent_aux, hs]
  | .Tuple es, env, path => fun henv => by
      have he := dependent_list_false es env path 0 henv
      simp [dependent_aux, he]
  | .Data u t, env, path => fun _ => by
      simp [dependent_aux]
  | .Intrinsic u t, env, path => fun _ => by
      simp [dependent_aux]

/-- Counterpart of `dependent_aux_false` for a Block's locals: no local is
dependent, no path is collected, and the extended environment stays
all-false. -/
theorem dependent_locals_false :
    ∀ (ls : List (String × BuildingBlock)) (env : List (String × Bool))
      (path : Path) (i : Nat),
      (∀ x ∈ env, x.2 = false) →
      (dependent_locals (fun _ => false) ls env path i).1 = false
      ∧ (dependent_locals (fun _ => false) ls env path i).2.1 = []
      ∧ (∀ x ∈ (dependent_locals (fun _ => false) ls env path i).2.2, x.2 = false)
  | [], env, path, i => fun henv => by
      exact ⟨rfl, rfl, henv⟩
  | (n, v) :: rest, env, path, i => fun henv => by
      have hv := dependent_aux_false v env (path ++ [i]) henv
      have hrest := dependent_locals_false rest ((n, false) :: env) path (i + 1)
        (by
          intro x hx
          rcases List.mem_cons.mp hx with h | h
          · rw [h]
          · exact henv x h)
      refine ⟨?_, ?_, ?_⟩
      · simp [dependent_locals, hv, hrest.1]
      · simp [dependent_locals, hv, hrest.2.1]
      · intro x hx
        apply hrest.2.2
        simpa [dependent_locals, hv] using hx

/-- Counterpart of `dependent_aux_false` for a Tuple's elements. -/
theorem dependent_list_false :
    ∀ (es : List BuildingBlock) (env : List (String × Bool))
      (path : Path) (i : Nat),
      (∀ x ∈ env, x.2 = false) →
      dependent_list (fun _ => false) es env path i = (false, [])
  | [], env, path, i => fun _ => rfl
  | e :: rest, env, path, i => fun henv => by
      have he := dependent_aux_false e env (path ++ [i]) henv
      have hrest := dependent_list_false rest env path (i + 1) henv
      simp [dependent_list, he, hrest]

end

mutual

/-- Under the always-true predicate every node is dependent: the engine
collects exactly one path per node of the subtree. -/
theorem dependent_aux_true :
    ∀ (c : BuildingBlock) (env : List (String × Bool)) (path : Path),
      (dependent_aux (fun _ => true) c env path).2.length = (postorderNodes c).length
  | .Reference n t, env, path => by
      simp [dependent_aux, postorderNodes]
  | .Lambda p pt body, env, path => by
      have hb := dependent_aux_true body ((p, false) :: env) (path ++ [0])
      simp [dependent_aux, postorderNodes, hb]
  | .Block locals result, env, path => by
      have hl := dependent_locals_true locals env path 0
      have hr := dependent_aux_true result
        (dependent_locals (fun _ => true) locals env path 0).2.2
        (path ++ [locals.length])
      simp [dependent_aux, postorderNodes, hl, hr]
  | .Call f a, env, path => by
      have hf := dependent_aux_true f env (path ++ [0])
      have ha := dependent_aux_true a env (path ++ [1])
      simp [dependent_aux, postorderNodes, hf, ha]
  | .Selection src i, env, path => by
      have hs := dependent_aux_true src env (path ++ [0])
      simp [dependent_aux, postorderNodes, hs]
  | .Tuple es, env, path => by
      have he := dependent_list_true es env path 0
      simp [dependent_aux, postorderNodes, he]
  | .Data u t, env, path => by
      simp [dependent_aux, postorderNodes]
  | .Intrinsic u t, env, path => by
      simp [dependent_aux, postorderNodes]

/-- Counterpart of `dependent_aux_true` for a Block's locals. -/
theorem dependent_locals_true :
    ∀ (ls : List (String × BuildingBlock)) (env : List (String × Bool))
      (path : Path) (i : Nat),
      (dependent_locals (fun _ => true) ls env path i).2.1.length =
        (postorderNodesLocals ls).length
  | [], env, path, i => by
      simp [dependent_locals, postorderNodesLocals]
  | (n, v) :: rest, env, path, i => by
      have hv := dependent_aux_true v env (path ++ [i])
      have hrest := dependent_locals_true rest
        ((n, (dependent_aux (fun _ => true) v env (path ++ [i])).1) :: env)
        path (i + 1)
      simp [dependent_locals, postorderNodesLocals, hv, hrest]

/-- Counterpart of `dependent_aux_true` for a Tuple's elements. -/
theorem dependent_list_true :
    ∀ (es : List BuildingBlock) (env : List (String × Bool))
      (path : Path) (i : Nat),
      (dependent_list (fun _ => true) es env path i).2.length =
        (postorderNodesList es).length
  | [], env, path, i => by
      simp [dependent_list, postorderNodesList]
  | e :: rest, env, path, i => by
      have he := dependent_aux_true e env (path ++ [i])
      have hrest := dependent_list_true rest env path (i + 1)
      simp [dependent_list, postorderNodesList, he, hrest]

end

/-- Claim C1: for the tree `Block([("x", Intrinsic("dummy"))], Reference("x"))`
and the predicate "identifier == dummy", `extract_nodes_dependent_on_predicate`
returns exactly the three-element set consisting of the Block node (path `[]`),
the local's Intrinsic value node (path `[0]`) and the result `Reference("x")`
node (path `[1]`): dependency flows from a Block local's value through the
lexical binding into a Reference to that local. -/
theorem extract_block_binding_dependent_set :
    extract_nodes_dependent_on_predicate dummy_block dummy_predicate = [[0], [1], []]
    ∧ (extract_nodes_dependent_on_predicate dummy_block dummy_predicate).length = 3
    ∧ nodeAt dummy_block [] = some dummy_block
    ∧ nodeAt dummy_block [0] = some (.Intrinsic "dummy" int32)
    ∧ nodeAt dummy_block [1] = some (.Reference "x" int32) :=
  ⟨rfl, rfl, rfl, rfl, rfl⟩

/-- Claim C2: `is_broadcast_dependent_on_aggregate` on a tree of shape
`broadcast(aggregate(...))` returns `(true, S)` with `S` of size exactly 1
containing the broadcast call node (the root, path `[]`); on a tree of shape
`aggregate(broadcast(...), ...)` it returns `(false, {})`. -/
theorem broadcast_dependent_on_aggregate_examples :
    is_broadcast_dependent_on_aggregate broadcast_of_aggregate = (true, [[]])
    ∧ (is_broadcast_dependent_on_aggregate broadcast_of_aggregate).2.length = 1
    ∧ nodeAt broadcast_of_aggregate [] = some broadcast_of_aggregate
    ∧ is_called_intrinsic "federated_broadcast" broadcast_of_aggregate = true
    ∧ is_broadcast_dependent_on_aggregate aggregate_of_broadcast = (false, []) :=
  ⟨rfl, rfl, rfl, rfl, rfl⟩

/-- Claim C3: for every tree, the set returned by
`extract_nodes_dependent_on_predicate` under the constant-true predicate has
size exactly `count(tree)`: every node of the tree is dependent. -/
theorem extract_true_predicate_size_eq_count (tree : BuildingBlock) :
    (extract_nodes_dependent_on_predicate tree (fun _ => true)).length =
      count tree none := by
  rw [count_eq_countP]
  unfold extract_nodes_dependent_on_predicate
  rw [dependent_aux_true tree [] []]
  have he : effective_predicate none = fun _ : BuildingBlock => true := rfl
  rw [he, List.countP_true]

/-- Claim C4: for every tree, `extract_nodes_dependent_on_predicate` under
the constant-false predicate returns the empty set: no node is dependent
when no node can match the predicate. -/
theorem extract_false_predicate_empty (tree : BuildingBlock) :
    extract_nodes_dependent_on_predicate tree (fun _ => false) = [] := by
  unfold extract_nodes_dependent_on_predicate
  rw [dependent_aux_false tree [] [] (by intro x hx; cases hx)]

/-- Claim C5: `check_intrinsics_whitelisted_for_reduction` raises an error on
the first Intrinsic node (in postorder) whose identifier is absent from the
fixed whitelist, with a message citing that node's compact rendering; it
returns normally exactly when every Intrinsic's identifier is whitelisted; in
particular it raises on an Intrinsic named `federated_mean` and passes
silently on one named `federated_map`. -/
theorem check_intrinsics_whitelisted_spec :
    (∀ comp : BuildingBlock,
      check_intrinsics_whitelisted_for_reduction comp =
        match (postorderNodes comp).find? nonwhitelisted_intrinsic with
        | some x => Except.error (whitelist_error x)
        | none => Except.ok ())
    ∧ (∀ comp : BuildingBlock,
        (check_intrinsics_whitelisted_for_reduction comp = Except.ok () ↔
          ∀ x ∈ postorderNodes comp, nonwhitelisted_intrinsic x = false))
    ∧ (∀ x : BuildingBlock, whitelist_error x =
        AnalysisError.valueError
          ("Encountered an Intrinsic not currently reducible to aggregate or " ++
           "broadcast, the intrinsic " ++ compact_representation x))
    ∧ check_intrinsics_whitelisted_for_reduction federated_mean_intrinsic =
        Except.error (whitelist_error federated_mean_intrinsic)
    ∧ check_intrinsics_whitelisted_for_reduction federated_map_intrinsic =
        Except.ok () := by
  refine ⟨check_intrinsics_whitelisted_eq, ?_, fun x => rfl, rfl, rfl⟩
  intro comp
  rw [check_intrinsics_whitelisted_eq]
  cases h : (postorderNodes comp).find? nonwhitelisted_intrinsic with
  | some x =>
      have hx := List.find?_some h
      have hmem := List.mem_of_find?_eq_some h
      simp
      exact ⟨x, hmem, hx⟩
  | none =>
      rw [List.find?_eq_none] at h
      simp
      intro y hy
      simpa using h y hy

/-- Witness for claim C5: the whitelist theorem applied at the concrete
`federated_map` Intrinsic, which passes silently. -/
theorem check_intrinsics_whitelisted_spec_witness :
    check_intrinsics_whitelisted_for_reduction federated_map_intrinsic =
      Except.ok () :=
  check_intrinsics_whitelisted_spec.2.2.2.2

/-- Claim C6: `check_has_single_placement` raises an error exactly when the
tree contains a node whose type annotation is a federated type with a
placement different from the required one, failing on the first such node in
postorder with an error naming the conflicting placement and the node's
compact rendering; it returns normally when every federated-typed node
carries the required placement. -/
theorem check_has_single_placement_spec :
    (∀ (comp : BuildingBlock) (pl : PlacementLiteral),
      check_has_single_placement comp pl =
        match (postorderNodes comp).find? (placement_mismatch pl) with
        | some x => Except.error (placement_error pl x)
        | none => Except.ok ())
    ∧ (∀ (comp : BuildingBlock) (pl : PlacementLiteral),
        (check_has_single_placement comp pl = Except.ok () ↔
          ∀ x ∈ postorderNodes comp, placement_mismatch pl x = false))
    ∧ (∀ (pl : PlacementLiteral) (x : BuildingBlock), placement_mismatch pl x =
        match x.type_signature with
        | .federated _ p => decide (p ≠ pl)
        | _ => false)
    ∧ (∀ (pl : PlacementLiteral) (x : BuildingBlock), placement_error pl x =
        AnalysisError.valueError ("Comp contains a placement other than " ++
          pl.uri ++ "; placement " ++
          (match x.type_signature with
           | .federated _ p => p.uri
           | _ => "") ++
          " on comp " ++ compact_representation x ++ " inside the structure. ")) := by
  refine ⟨check_has_single_placement_eq, ?_, fun pl x => rfl, fun pl x => rfl⟩
  intro comp pl
  rw [check_has_single_placement_eq]
  cases h : (postorderNodes comp).find? (placement_mismatch pl) with
  | some x =>
      have hx := List.find?_some h
      have hmem := List.mem_of_find?_eq_some h
      simp
      exact ⟨x, hmem, hx⟩
  | none =>
      rw [List.find?_eq_none] at h
      simp
      intro y hy
      simpa using h y hy

/-- Witness for claim C6: the placement theorem applied at a concrete
clients-placed Data leaf against a required server placement, which yields
the placement error, and against the matching clients placement, which
passes. -/
theorem check_has_single_placement_spec_witness :
    check_has_single_placement (.Data "d" clients_int32) ⟨"server"⟩ =
      Except.error (placement_error ⟨"server"⟩ (.Data "d" clients_int32))
    ∧ check_has_single_placement (.Data "d" clients_int32) ⟨"clients"⟩ =
      Except.ok () := by
  constructor
  · have h := check_has_single_placement_spec.1 (.Data "d" clients_int32) ⟨"server"⟩
    simpa using h
  · have h := check_has_single_placement_spec.1 (.Data "d" clients_int32) ⟨"clients"⟩
    simpa using h

/-- Claim C7: every entry point of the library rejects an invalid argument
(a tree argument that is not an IR node, a predicate argument that is not
callable, a placement argument that is not a placement value) with an eager
`TypeError` before any traversal, performing no analysis work: the result is
the bare error, independent of the remaining arguments. -/
theorem invalid_argument_eager_errors :
    (∀ predicate, count_checked none predicate =
      Except.error (AnalysisError.typeError "Expected a ComputationBuildingBlock"))
    ∧ (∀ types, count_types_checked none types =
      Except.error (AnalysisError.typeError "Expected a ComputationBuildingBlock"))
    ∧ (∀ pl, check_has_single_placement_checked none pl =
      Except.error (AnalysisError.typeError "Expected a ComputationBuildingBlock"))
    ∧ (∀ c : BuildingBlock, check_has_single_placement_checked (some c) none =
      Except.error (AnalysisError.typeError "Expected a PlacementLiteral"))
    ∧ check_intrinsics_whitelisted_for_reduction_checked none =
      Except.error (AnalysisError.typeError "Expected a ComputationBuildingBlock")
    ∧ check_has_unique_names_checked none =
      Except.error (AnalysisError.typeError "Expected a ComputationBuildingBlock")
    ∧ (∀ predicate, extract_nodes_dependent_on_predicate_checked none predicate =
      Except.error (AnalysisError.typeError "Expected a ComputationBuildingBlock"))
    ∧ (∀ c : BuildingBlock, extract_nodes_dependent_on_predicate_checked (some c) none =
      Except.error (AnalysisError.typeError "Expected a callable predicate"))
    ∧ is_broadcast_dependent_on_aggregate_checked none =
      Except.error (AnalysisError.typeError "Expected a ComputationBuildingBlock") :=
  ⟨fun _ => rfl, fun _ => rfl, fun _ => rfl, fun _ => rfl, rfl, rfl,
    fun _ => rfl, fun _ => rfl, rfl⟩

/-- Claim C8: every analysis is read-only.  Each internal visitor returns
the visited node itself with no substitution requested, so every traversal
of the library either fails (whereupon no tree is produced at all) or
returns the input tree itself with the modified flag false: no node is
rewritten, created or removed. -/
theorem analyses_read_only (comp : BuildingBlock) :
    (∀ (predicate : Option (BuildingBlock → Bool)) (n : Nat),
      transform_postorder comp (count_visitor predicate) n =
        Except.ok (comp, false,
          n + (postorderNodes comp).countP (effective_predicate predicate)))
    ∧ (∀ pl : PlacementLiteral,
        transform_postorder comp (placement_visitor pl) () =
          match (postorderNodes comp).find? (placement_mismatch pl) with
          | some x => Except.error (placement_error pl x)
          | none => Except.ok (comp, false, ()))
    ∧ (transform_postorder comp whitelist_visitor () =
        match (postorderNodes comp).find? nonwhitelisted_intrinsic with
        | some x => Except.error (whitelist_error x)
        | none => Except.ok (comp, false, ())) := by
  refine ⟨fun predicate n => transform_count predicate comp n, fun pl => ?_, ?_⟩
  · rw [placement_visitor_eq,
      transform_pure (placement_mismatch pl) (placement_error pl) (fun _ u => u) comp ()]
  · rw [whitelist_visitor_eq,
      transform_pure nonwhitelisted_intrinsic whitelist_error (fun _ u => u) comp ()]

/-- Claim C9: for every tree, `count` with the predicate argument omitted
returns the same integer as `count` with the always-true predicate. -/
theorem count_default_eq_count_true (tree : BuildingBlock) :
    count tree none = count tree (some (fun _ => true)) := rfl

/-- Claim C10: `count` is monotone in its predicate: if `p` implies `q` on
all nodes then `count(tree, p) ≤ count(tree, q)`; and for every predicate
`p`, `0 ≤ count(tree, p) ≤ count(tree)`. -/
theorem count_monotone_in_predicate (comp : BuildingBlock)
    (p q : BuildingBlock → Bool) (h : ∀ c, p c = true → q c = true) :
    count comp (some p) ≤ count comp (some q)
    ∧ 0 ≤ count comp (some p)
    ∧ count comp (some p) ≤ count comp none := by
  rw [count_eq_countP, count_eq_countP, count_eq_countP]
  refine ⟨List.countP_mono_left (fun x _ hx => h x hx), Nat.zero_le _, ?_⟩
  have h1 : (postorderNodes comp).countP (effective_predicate (some p)) ≤
      (postorderNodes comp).length := List.countP_le_length _
  have h2 : (postorderNodes comp).countP (effective_predicate none) =
      (postorderNodes comp).length := by
    simp [effective_predicate, List.countP_true]
  omega

/-- Witness for claim C10: the monotonicity theorem applied at a concrete
one-node tree with the always-true predicate on both sides. -/
theorem count_monotone_in_predicate_witness :
    count (.Data "d" (.tensor "int32")) (some (fun _ => true)) ≤
        count (.Data "d" (.tensor "int32")) (some (fun _ => true))
    ∧ 0 ≤ count (.Data "d" (.tensor "int32")) (some (fun _ => true))
    ∧ count (.Data "d" (.tensor "int32")) (some (fun _ => true)) ≤
        count (.Data "d" (.tensor "int32")) none :=
  count_monotone_in_predicate (.Data "d" (.tensor "int32"))
    (fun _ => true) (fun _ => true) (fun _ h => h)

end TreeAnalysis
